import Mathlib

/- Formal model of the news_scrapper repository (news_collector.py, scraper_utils.py).
   Python functions are embedded as pure Lean functions; the logging subsystem is an
   explicit state (`LogState`), fallible operations return `Except`, and the thread
   pool's nondeterminism is exposed as explicit parameters (the list of tasks that
   completed, in completion order, and whether the global deadline fired). -/

namespace NewsScraper

/- ---------------------------------------------------------------------------
   Logging model (scraper_utils.py).
   `errorLogSetUp` models `'error_log' in logging.Logger.manager.loggerDict`;
   `messages` records each logged message together with its severity flag
   (`true` = logged via `.error`, `false` = logged via `.warning`).
--------------------------------------------------------------------------- -/

structure LogState where
  errorLogSetUp : Bool
  messages : List (Bool × String)
deriving DecidableEq

/- `scraper_utils.NewsScrapperError` (a RuntimeError carrying a message). -/
structure NewsScrapperError where
  msg : String
deriving DecidableEq

def loggerMissingMsg : String := "Please set up \x27error_log\x27 logger first."

/- `scraper_utils.log_warning(msg, is_error=False)`: raises NewsScrapperError when
   the logger named error_log has not been set up; otherwise logs msg as an error
   (is_error=True) or as a warning (is_error=False). -/
def log_warning (msg : String) (is_error : Bool) (s : LogState) :
    Except NewsScrapperError LogState :=
  if s.errorLogSetUp then
    .ok { s with messages := s.messages ++ [(is_error, msg)] }
  else
    .error ⟨loggerMissingMsg⟩

/- ---------------------------------------------------------------------------
   Concurrent collector model (news_collector.retrieve_registered_news_by_rss).
   A (source, category) task is represented by the data the function observes:
   the feed url (`news_src._get_rss_url(category)`) and the outcome of
   `future_obj.result()` — a raw feed, an HTTPError with a code, or a URLError
   with a reason. `Raw` bundles the raw feed object together with whatever
   `news_src.parse_feed` needs (source and category).
--------------------------------------------------------------------------- -/

inductive FetchOutcome (Raw : Type) where
  | success (raw : Raw)
  | httpError (code : Int)
  | urlError (reason : String)
deriving DecidableEq

def FetchOutcome.isSuccess {Raw : Type} : FetchOutcome Raw → Bool
  | .success _ => true
  | _ => false

structure FeedTask (Raw : Type) where
  url : String
  outcome : FetchOutcome Raw
deriving DecidableEq

/- The exact warning texts built inside the generator. -/
def httpErrorMsg (code : Int) (url : String) : String :=
  "HTTP Error " ++ toString code ++ " for RSS feed \x27" ++ url ++ "\x27"

def urlErrorMsg (reason : String) (url : String) : String :=
  "URL Error [" ++ reason ++ "] for RSS feed \x27" ++ url ++ "\x27"

def timeoutMsg (detail : String) : String :=
  "Timeout in news_collector: " ++ detail

/- The body of the `for future_obj in done_iter` loop, folded over the completed
   futures in completion order: a success is parsed and yielded, an HTTPError or
   URLError is caught and logged with the feed url, and the loop continues. -/
def processCompleted {Raw Feed : Type} (parse : Raw → Feed) :
    List (FeedTask Raw) → List Feed → LogState →
    Except NewsScrapperError (List Feed × LogState)
  | [], acc, s => .ok (acc, s)
  | t :: ts, acc, s =>
    match t.outcome with
    | .success raw => processCompleted parse ts (acc ++ [parse raw]) s
    | .httpError code =>
      match log_warning (httpErrorMsg code t.url) false s with
      | .error err => .error err
      | .ok s1 => processCompleted parse ts acc s1
    | .urlError reason =>
      match log_warning (urlErrorMsg reason t.url) false s with
      | .error err => .error err
      | .ok s1 => processCompleted parse ts acc s1

/- `retrieve_registered_news_by_rss(num_of_workers, worker_timeout)`.
   `completed` is the list of futures `futures.as_completed` handed back before
   the deadline, in completion order; `tmo` is `some detail` when the deadline
   elapsed with tasks outstanding (`detail` standing for `str(e)` of the
   `futures.TimeoutError`), `none` when all tasks completed in time.  The
   `except futures.TimeoutError` arm logs exactly one warning and ends the
   generator. -/
def retrieve_registered_news_by_rss {Raw Feed : Type} (parse : Raw → Feed)
    (completed : List (FeedTask Raw)) (tmo : Option String) (s : LogState) :
    Except NewsScrapperError (List Feed × LogState) :=
  match processCompleted parse completed [] s with
  | .error err => .error err
  | .ok (feeds, s1) =>
    match tmo with
    | none => .ok (feeds, s1)
    | some detail =>
      match log_warning (timeoutMsg detail) false s1 with
      | .error err => .error err
      | .ok s2 => .ok (feeds, s2)

/- The feeds yielded for the successful tasks, in completion order. -/
def successFeeds {Raw Feed : Type} (parse : Raw → Feed) (ts : List (FeedTask Raw)) :
    List Feed :=
  ts.filterMap (fun t =>
    match t.outcome with
    | .success raw => some (parse raw)
    | .httpError _ => none
    | .urlError _ => none)

/- The warnings logged for the failed tasks, in completion order. -/
def failureLogs {Raw : Type} (ts : List (FeedTask Raw)) : List (Bool × String) :=
  ts.filterMap (fun t =>
    match t.outcome with
    | .success _ => none
    | .httpError code => some (false, httpErrorMsg code t.url)
    | .urlError reason => some (false, urlErrorMsg reason t.url))

/- ---------------------------------------------------------------------------
   The deadline, made explicit.  Each task is given the wall-clock instant at
   which its fetch would finish; the tasks handed back by
   `futures.as_completed(future_map, timeout=worker_timeout)` are exactly those
   finishing within the deadline, and the `futures.TimeoutError` fires exactly
   when some task is still outstanding at the deadline.
--------------------------------------------------------------------------- -/

structure TimedTask (Raw : Type) where
  task : FeedTask Raw
  finishTime : Nat
deriving DecidableEq

def completedBy {Raw : Type} (ts : List (TimedTask Raw)) (deadline : Nat) :
    List (FeedTask Raw) :=
  (ts.filter (fun t => t.finishTime ≤ deadline)).map TimedTask.task

def anyOutstanding {Raw : Type} (ts : List (TimedTask Raw)) (deadline : Nat) : Bool :=
  ts.any (fun t => deadline < t.finishTime)

def retrieve_with_deadline {Raw Feed : Type} (parse : Raw → Feed)
    (ts : List (TimedTask Raw)) (deadline : Nat) (detail : String) (s : LogState) :
    Except NewsScrapperError (List Feed × LogState) :=
  retrieve_registered_news_by_rss parse (completedBy ts deadline)
    (if anyOutstanding ts deadline then some detail else none) s

/- ---------------------------------------------------------------------------
   Persistence model (news_collector.save_data_into_database).
   The function body is: `with PostgreSqlDB(database=databse_name) as conn:`
   then one loop storing every scraping rule, then one loop storing every news
   entry.  The two store operations live in store_data_to_db.py (outside the
   collector); they are parameters here, acting on an abstract database state
   `Db` and possibly failing.  Every storage call is recorded as a `DbEvent`,
   and the scoped `with` block contributes the open and close events around the
   body on every exit path, as Python context managers do.
--------------------------------------------------------------------------- -/

inductive DbEvent (Rule Entry : Type) where
  | openConn
  | writeRule (r : Rule)
  | writeNews (e : Entry)
  | closeConn
deriving DecidableEq

def DbEvent.isClose {Rule Entry : Type} : DbEvent Rule Entry → Bool
  | .closeConn => true
  | _ => false

/- The first loop: `for rule in scraping_rules: db_api.store_a_scraping_rule_to_db(rule)`.
   A failing store raises, ending the loop after its own call. -/
def runRuleWrites {Rule Entry Db E : Type} (store : Rule → Db → Except E Db) :
    List Rule → Db → Except E Db × List (DbEvent Rule Entry)
  | [], db => (.ok db, [])
  | r :: rs, db =>
    match store r db with
    | .error err => (.error err, [.writeRule r])
    | .ok db1 =>
      let rest := runRuleWrites store rs db1
      (rest.1, .writeRule r :: rest.2)

/- The second loop: `for news in news_entries: db_api.store_a_rss_news_entry_to_db(news)`. -/
def runNewsWrites {Rule Entry Db E : Type} (store : Entry → Db → Except E Db) :
    List Entry → Db → Except E Db × List (DbEvent Rule Entry)
  | [], db => (.ok db, [])
  | e :: es, db =>
    match store e db with
    | .error err => (.error err, [.writeNews e])
    | .ok db1 =>
      let rest := runNewsWrites store es db1
      (rest.1, .writeNews e :: rest.2)

/- After the first loop: if a rule write raised, the run ends there; otherwise
   the second loop runs on the database state the first one produced, and its
   events follow those of the first loop. -/
def savePhases {Rule Entry Db E : Type} (storeNews : Entry → Db → Except E Db)
    (news_entries : List Entry) :
    Except E Db × List (DbEvent Rule Entry) → Except E Db × List (DbEvent Rule Entry)
  | (.error err, evs1) => (.error err, evs1)
  | (.ok db1, evs1) =>
    ((@runNewsWrites Rule Entry Db E storeNews news_entries db1).1,
     evs1 ++ (@runNewsWrites Rule Entry Db E storeNews news_entries db1).2)

/- The `with PostgreSqlDB(database=databse_name) as conn:` block: acquisition
   before the body, release after it on every exit path. -/
def withConnEvents {Rule Entry Db E : Type}
    (p : Except E Db × List (DbEvent Rule Entry)) :
    Except E Db × List (DbEvent Rule Entry) :=
  (p.1, .openConn :: p.2 ++ [.closeConn])

def save_data_into_database {Rule Entry Db E : Type}
    (storeRule : Rule → Db → Except E Db) (storeNews : Entry → Db → Except E Db)
    (scraping_rules : List Rule) (news_entries : List Entry) (db : Db) :
    Except E Db × List (DbEvent Rule Entry) :=
  withConnEvents (savePhases storeNews news_entries
    (@runRuleWrites Rule Entry Db E storeRule scraping_rules db))

/- ---------------------------------------------------------------------------
   Concrete storage backend for the idempotence claim.
--------------------------------------------------------------------------- -/

/- A stored scraping-rule row: a stable identifier plus the rule payload. -/
structure ScrapingRule (V : Type) where
  ruleId : Nat
  content : V
deriving DecidableEq

/- A stored news row, likewise keyed by a stable identifier. -/
structure NewsRow (W : Type) where
  newsId : Nat
  content : W
deriving DecidableEq

/-- Modelled from the spec: `NewsDatabaseAPI.store_a_scraping_rule_to_db`
(store_data_to_db.py, which is not under src/) upserts one rule row keyed by the
rule's identifier — "phase 1 — for each Rule in order, upsert it (idempotent by
identifier, so re-running the pipeline with an unchanged rule file does not
duplicate rows)".  A row with the same identifier is overwritten in place; a
fresh identifier appends a new row. -/
def upsertRuleRow {V : Type} (rows : List (ScrapingRule V)) (r : ScrapingRule V) :
    List (ScrapingRule V) :=
  if rows.any (fun row => row.ruleId == r.ruleId) then
    rows.map (fun row => if row.ruleId == r.ruleId then r else row)
  else
    rows ++ [r]

/-- Modelled from the spec: `NewsDatabaseAPI.store_a_rss_news_entry_to_db`
(store_data_to_db.py, not under src/) upserts one item row and its matched-rule
relations — "phase 2 — for each filtered Item, upsert the item and its
matched-rule relations". -/
def upsertNewsRow {W : Type} (rows : List (NewsRow W)) (e : NewsRow W) :
    List (NewsRow W) :=
  if rows.any (fun row => row.newsId == e.newsId) then
    rows.map (fun row => if row.newsId == e.newsId then e else row)
  else
    rows ++ [e]

def upsertRules {V : Type} (rules : List (ScrapingRule V))
    (rows : List (ScrapingRule V)) : List (ScrapingRule V) :=
  rules.foldl upsertRuleRow rows

def upsertNewsRows {W : Type} (entries : List (NewsRow W))
    (rows : List (NewsRow W)) : List (NewsRow W) :=
  entries.foldl upsertNewsRow rows

/- The database state: the rule table and the news table. -/
def storeRuleToDb {V W : Type} (r : ScrapingRule V)
    (db : List (ScrapingRule V) × List (NewsRow W)) :
    Except Unit (List (ScrapingRule V) × List (NewsRow W)) :=
  .ok (upsertRuleRow db.1 r, db.2)

def storeNewsToDb {V W : Type} (e : NewsRow W)
    (db : List (ScrapingRule V) × List (NewsRow W)) :
    Except Unit (List (ScrapingRule V) × List (NewsRow W)) :=
  .ok (db.1, upsertNewsRow db.2 e)

/- The last rule of `rules` carrying identifier `i`, if any: the row the upsert
   sequence leaves at that identifier. -/
def lastUpsert {V : Type} : List (ScrapingRule V) → Nat → Option (ScrapingRule V)
  | [], _ => none
  | r :: rs, i =>
    match lastUpsert rs i with
    | some r0 => some r0
    | none => if r.ruleId == i then some r else none

/- Rewriting every row to the last upsert targeting its identifier. -/
def replaceByLast {V : Type} (rules : List (ScrapingRule V))
    (rows : List (ScrapingRule V)) : List (ScrapingRule V) :=
  rows.map (fun row =>
    match lastUpsert rules row.ruleId with
    | some r => r
    | none => row)

/- The database state one run of the persistence phase leaves behind. -/
def savedDb {V W : Type} (rules : List (ScrapingRule V))
    (entries : List (NewsRow W))
    (db : List (ScrapingRule V) × List (NewsRow W)) :
    List (ScrapingRule V) × List (NewsRow W) :=
  (upsertRules rules db.1, upsertNewsRows entries db.2)

/- ---------------------------------------------------------------------------
   Run entry point model (news_collector.main).
   `main()` takes no parameters (the worker count and deadline are the module
   constants below), sets up logging, collects the entries, applies the rules,
   filters the matched subset, saves it, and logs the counts.  It has no
   `return` statement, so it returns Python's None.  The file and database I/O
   and the constant informational messages are outside this model; the model
   keeps the return value and the one log line whose content the claim is
   about.
--------------------------------------------------------------------------- -/

def MAX_WORKERS : Nat := 10

def RSS_WORKER_TIMEOUT : Nat := 120

/-- Modelled from the spec: `news_data.get_target_news_by_scraping_rules`
(news_data.py, not under src/) yields "the filtered subsequence of Items having
at least one match, preserving original collection order". -/
def get_target_news_by_scraping_rules {I R : Type} (ruleMatches : R → I → Bool)
    (news_entries : List I) (scraping_rules : List R) : List I :=
  news_entries.filter (fun n => scraping_rules.any (fun r => ruleMatches r n))

def recordCountMsg (matched total : Nat) : String :=
  "Record " ++ toString matched ++ " news out of total " ++ toString total ++ " news."

/- `main()`: the returned value (always None — there is no return statement)
   together with the count log line
   `'Record %d news out of total %d news.' % (len(target_news), len(news_entries))`. -/
def main {I R : Type} (ruleMatches : R → I → Bool)
    (news_entries : List I) (scraping_rules : List R) :
    Option (Nat × Nat) × List String :=
  let target_news :=
    get_target_news_by_scraping_rules ruleMatches news_entries scraping_rules
  (none, [recordCountMsg target_news.length news_entries.length])

/- ---------------------------------------------------------------------------
   scraper_utils.extract_domain_name_from_url.
   The pattern re.compile of hat h t t p s? : / / ( [a-zA-Z0-9.-]+ ) / is
   modelled on the character list of the url: the literal scheme (with the
   optional s resolved by greedy matching with backtracking), then a maximal
   nonempty run of host characters, then a literal slash.  Since a slash is not
   a host character, the greedy run admits no shorter backtracked match, so the
   model below is the regex's unique match.
--------------------------------------------------------------------------- -/

def isHostChar (c : Char) : Bool :=
  c.isAlpha || c.isDigit || c == '.' || c == '-'

def matchScheme : List Char → Option (List Char)
  | 'h' :: 't' :: 't' :: 'p' :: rest =>
    match rest with
    | 's' :: ':' :: '/' :: '/' :: r => some r
    | ':' :: '/' :: '/' :: r => some r
    | _ => none
  | _ => none

/- `base_url_pattern.match(link)`, returning `group(1)` on a match. -/
def matchBaseUrl (link : String) : Option (List Char) :=
  match matchScheme link.data with
  | none => none
  | some r =>
    match r.dropWhile isHostChar with
    | '/' :: _ =>
      let host := r.takeWhile isHostChar
      if host.isEmpty then none else some host
    | _ => none

/- `.lstrip('www.')`: strips every leading character belonging to the SET of
   characters of the string www. — that is, the set containing w and the dot —
   not the prefix "www.". -/
def lstripWwwChars (cs : List Char) : List Char :=
  cs.dropWhile (fun c => c == 'w' || c == '.')

/- `extract_domain_name_from_url(link)`: on a regex match, the stripped host;
   otherwise `None.group` raises AttributeError, which is caught, a warning is
   logged via log_warning, and None is returned implicitly. -/
def extract_domain_name_from_url (link : String) (s : LogState) :
    Except NewsScrapperError (Option String × LogState) :=
  match matchBaseUrl link with
  | some host => .ok (some (String.mk (lstripWwwChars host)), s)
  | none =>
    match log_warning ("News link [" ++ link ++ "] does not match base_url_pattern.")
        false s with
    | .error err => .error err
    | .ok s1 => .ok (none, s1)

lemma processCompleted_ok {Raw Feed : Type} (parse : Raw → Feed)
    (ts : List (FeedTask Raw)) (acc : List Feed) (s : LogState)
    (h : s.errorLogSetUp = true) :
    processCompleted parse ts acc s =
      .ok (acc ++ successFeeds parse ts,
           { s with messages := s.messages ++ failureLogs ts }) := by
  induction ts generalizing acc s with
  | nil => simp [processCompleted, successFeeds, failureLogs]
  | cons t ts ih =>
    cases ht : t.outcome with
    | success raw =>
      simp only [processCompleted, ht, successFeeds, failureLogs, List.filterMap_cons]
      rw [ih (acc ++ [parse raw]) s h]
      simp [successFeeds, failureLogs]
    | httpError code =>
      simp only [processCompleted, ht, log_warning, h, if_true]
      rw [ih acc _ rfl]
      simp [successFeeds, failureLogs, ht]
    | urlError reason =>
      simp only [processCompleted, ht, log_warning, h, if_true]
      rw [ih acc _ rfl]
      simp [successFeeds, failureLogs, ht]

lemma retrieve_ok {Raw Feed : Type} (parse : Raw → Feed)
    (completed : List (FeedTask Raw)) (tmo : Option String) (s : LogState)
    (h : s.errorLogSetUp = true) :
    retrieve_registered_news_by_rss parse completed tmo s =
      .ok (successFeeds parse completed,
           { s with messages := s.messages ++ failureLogs completed ++
               (match tmo with
                | none => []
                | some detail => [(false, timeoutMsg detail)]) }) := by
  unfold retrieve_registered_news_by_rss
  rw [processCompleted_ok parse completed [] s h]
  cases tmo with
  | none => simp
  | some detail => simp [log_warning, h, List.append_assoc]

lemma successFeeds_length {Raw Feed : Type} (parse : Raw → Feed)
    (ts : List (FeedTask Raw)) :
    (successFeeds parse ts).length = ts.countP (fun t => t.outcome.isSuccess) := by
  induction ts with
  | nil => rfl
  | cons t ts ih =>
    cases ht : t.outcome <;>
      simp [successFeeds, List.filterMap_cons, ht, List.countP_cons,
        FetchOutcome.isSuccess, successFeeds] at ih ⊢ <;> omega

lemma failureLogs_length {Raw : Type} (ts : List (FeedTask Raw)) :
    (failureLogs ts).length = ts.countP (fun t => !t.outcome.isSuccess) := by
  induction ts with
  | nil => rfl
  | cons t ts ih =>
    cases ht : t.outcome <;>
      simp [failureLogs, List.filterMap_cons, ht, List.countP_cons,
        FetchOutcome.isSuccess, failureLogs] at ih ⊢ <;> omega

lemma countP_success_split {Raw : Type} (ts : List (FeedTask Raw)) :
    ts.countP (fun t => t.outcome.isSuccess) +
      ts.countP (fun t => !t.outcome.isSuccess) = ts.length := by
  induction ts with
  | nil => rfl
  | cons t ts ih =>
    simp only [List.countP_cons, List.length_cons]
    cases hb : t.outcome.isSuccess <;> simp [hb] <;> omega

lemma mem_completedBy_mono {Raw : Type} (ts : List (TimedTask Raw))
    {T1 T2 : Nat} (hT : T1 ≤ T2) {t : FeedTask Raw} (ht : t ∈ completedBy ts T1) :
    t ∈ completedBy ts T2 := by
  simp only [completedBy, List.mem_map, List.mem_filter] at ht ⊢
  obtain ⟨u, ⟨hu, hle⟩, rfl⟩ := ht
  exact ⟨u, ⟨hu, by simp only [decide_eq_true_eq] at hle ⊢; omega⟩, rfl⟩

lemma mem_successFeeds_of_mem {Raw Feed : Type} (parse : Raw → Feed)
    {ts us : List (FeedTask Raw)} (hsub : ∀ t ∈ ts, t ∈ us) :
    ∀ f ∈ successFeeds parse ts, f ∈ successFeeds parse us := by
  intro f hf
  simp only [successFeeds, List.mem_filterMap] at hf ⊢
  obtain ⟨t, ht, heq⟩ := hf
  exact ⟨t, hsub t ht, heq⟩

/-- C2: for every collection run and every task whose fetch raises an HTTP-level
(`HTTPError`) or transport/network (`URLError`) error, the collector catches the
error individually, logs a warning containing the task's feed url, and continues:
the run never propagates a per-task fetch error (it returns `.ok`), and the
sibling tasks' parsed feeds are all still yielded. -/
theorem retrieve_registered_news_by_rss_isolates_failures
    {Raw Feed : Type} (parse : Raw → Feed) (completed : List (FeedTask Raw))
    (tmo : Option String) (s : LogState) (h : s.errorLogSetUp = true) :
    ∃ s2 : LogState,
      retrieve_registered_news_by_rss parse completed tmo s =
        .ok (successFeeds parse completed, s2) ∧
      ∀ t ∈ completed, t.outcome.isSuccess = false →
        ∃ pre post, (false, pre ++ t.url ++ post) ∈ s2.messages := by
  refine ⟨_, retrieve_ok parse completed tmo s h, ?_⟩
  intro t ht hfail
  have hmem : ∀ m ∈ failureLogs completed,
      m ∈ s.messages ++ failureLogs completed ++
        (match tmo with
         | none => ([] : List (Bool × String))
         | some detail => [(false, timeoutMsg detail)]) := by
    intro m hm
    exact List.mem_append_left _ (List.mem_append_right _ hm)
  cases houtcome : t.outcome with
  | success raw => simp [houtcome, FetchOutcome.isSuccess] at hfail
  | httpError code =>
    refine ⟨"HTTP Error " ++ toString code ++ " for RSS feed \x27", "\x27", ?_⟩
    exact hmem _ (List.mem_filterMap.mpr ⟨t, ht, by simp [houtcome, httpErrorMsg]⟩)
  | urlError reason =>
    refine ⟨"URL Error [" ++ reason ++ "] for RSS feed \x27", "\x27", ?_⟩
    exact hmem _ (List.mem_filterMap.mpr ⟨t, ht, by simp [houtcome, urlErrorMsg]⟩)

/-- C3: for every submitted task set of size N of which exactly k fail with a
classified fetch error, and every completion order the worker pool may produce
(any permutation of the task set, hence regardless of the pool size W), the
collector yields exactly N minus k parsed feeds and appends exactly k failure
warnings: each task contributes exactly one yielded feed or exactly one logged
failure, never both and never neither. -/
theorem retrieve_registered_news_by_rss_counts
    {Raw Feed : Type} (parse : Raw → Feed)
    (tasks completed : List (FeedTask Raw)) (s : LogState)
    (h : s.errorLogSetUp = true) (hperm : completed.Perm tasks) :
    retrieve_registered_news_by_rss parse completed none s =
      .ok (successFeeds parse completed,
           { s with messages := s.messages ++ failureLogs completed }) ∧
    (successFeeds parse completed).length =
      tasks.length - tasks.countP (fun t => !t.outcome.isSuccess) ∧
    (failureLogs completed).length = tasks.countP (fun t => !t.outcome.isSuccess) := by
  refine ⟨?_, ?_, ?_⟩
  · have := retrieve_ok parse completed none s h
    simpa using this
  · rw [successFeeds_length, hperm.countP_eq]
    have := countP_success_split tasks
    omega
  · rw [failureLogs_length, hperm.countP_eq]

/-- C4: if the global deadline elapses before all tasks complete, the outstanding
tasks are abandoned (they contribute nothing to the yielded feeds or the log),
exactly one deadline-exceeded warning is appended for the run, no exception
escapes to the caller (the run returns `.ok`), and every task that completed
before the deadline is still yielded. -/
theorem retrieve_registered_news_by_rss_deadline
    {Raw Feed : Type} (parse : Raw → Feed) (ts : List (TimedTask Raw))
    (deadline : Nat) (detail : String) (s : LogState)
    (h : s.errorLogSetUp = true) (hout : anyOutstanding ts deadline = true) :
    retrieve_with_deadline parse ts deadline detail s =
      .ok (successFeeds parse (completedBy ts deadline),
           { s with messages := s.messages ++ failureLogs (completedBy ts deadline) ++
               [(false, timeoutMsg detail)] }) := by
  unfold retrieve_with_deadline
  rw [hout]
  simpa using retrieve_ok parse (completedBy ts deadline) (some detail) s h

/-- C8: for a fixed task set with fixed finish times and deadlines T1 < T2, the
set of feeds the collector yields under deadline T2 is a superset of the set it
yields under deadline T1: more time never loses a result. -/
theorem retrieve_registered_news_by_rss_deadline_monotone
    {Raw Feed : Type} (parse : Raw → Feed) (ts : List (TimedTask Raw))
    (T1 T2 : Nat) (d1 d2 : String) (s : LogState)
    (h : s.errorLogSetUp = true) (hT : T1 < T2) :
    ∃ fs1 s1 fs2 s2,
      retrieve_with_deadline parse ts T1 d1 s = .ok (fs1, s1) ∧
      retrieve_with_deadline parse ts T2 d2 s = .ok (fs2, s2) ∧
      ∀ f ∈ fs1, f ∈ fs2 := by
  refine ⟨successFeeds parse (completedBy ts T1), _,
          successFeeds parse (completedBy ts T2), _,
          retrieve_ok parse (completedBy ts T1) _ s h,
          retrieve_ok parse (completedBy ts T2) _ s h, ?_⟩
  exact mem_successFeeds_of_mem parse
    (fun t ht => mem_completedBy_mono ts (Nat.le_of_lt hT) ht)

lemma runRuleWrites_events {Rule Entry Db E : Type} (store : Rule → Db → Except E Db)
    (rs : List Rule) (db : Db) :
    ∀ ev ∈ (@runRuleWrites Rule Entry Db E store rs db).2,
      ∃ r, ev = DbEvent.writeRule r := by
  induction rs generalizing db with
  | nil => intro ev h; simp [runRuleWrites] at h
  | cons r rs ih =>
    intro ev h
    simp only [runRuleWrites] at h
    cases hst : store r db with
    | error err =>
      rw [hst] at h
      simp at h
      exact ⟨r, h⟩
    | ok db1 =>
      rw [hst] at h
      simp at h
      rcases h with h | h
      · exact ⟨r, h⟩
      · exact ih db1 ev h

lemma runNewsWrites_events {Rule Entry Db E : Type} (store : Entry → Db → Except E Db)
    (es : List Entry) (db : Db) :
    ∀ ev ∈ (@runNewsWrites Rule Entry Db E store es db).2,
      ∃ e, ev = DbEvent.writeNews e := by
  induction es generalizing db with
  | nil => intro ev h; simp [runNewsWrites] at h
  | cons e es ih =>
    intro ev h
    simp only [runNewsWrites] at h
    cases hst : store e db with
    | error err =>
      rw [hst] at h
      simp at h
      exact ⟨e, h⟩
    | ok db1 =>
      rw [hst] at h
      simp at h
      rcases h with h | h
      · exact ⟨e, h⟩
      · exact ih db1 ev h

lemma save_eq_of_ruleWrites_error {Rule Entry Db E : Type}
    (storeRule : Rule → Db → Except E Db) (storeNews : Entry → Db → Except E Db)
    (scraping_rules : List Rule) (news_entries : List Entry) (db : Db)
    (err : E) (evs1 : List (DbEvent Rule Entry))
    (h : @runRuleWrites Rule Entry Db E storeRule scraping_rules db = (.error err, evs1)) :
    save_data_into_database storeRule storeNews scraping_rules news_entries db =
      (.error err, DbEvent.openConn :: evs1 ++ [DbEvent.closeConn]) := by
  unfold save_data_into_database
  rw [h]
  rfl

lemma save_eq_of_ruleWrites_ok {Rule Entry Db E : Type}
    (storeRule : Rule → Db → Except E Db) (storeNews : Entry → Db → Except E Db)
    (scraping_rules : List Rule) (news_entries : List Entry) (db : Db)
    (db1 : Db) (evs1 : List (DbEvent Rule Entry)) (res2 : Except E Db)
    (evs2 : List (DbEvent Rule Entry))
    (h1 : @runRuleWrites Rule Entry Db E storeRule scraping_rules db = (.ok db1, evs1))
    (h2 : @runNewsWrites Rule Entry Db E storeNews news_entries db1 = (res2, evs2)) :
    save_data_into_database storeRule storeNews scraping_rules news_entries db =
      (res2, DbEvent.openConn :: (evs1 ++ evs2) ++ [DbEvent.closeConn]) := by
  unfold save_data_into_database
  rw [h1]
  show withConnEvents
      ((@runNewsWrites Rule Entry Db E storeNews news_entries db1).1,
       evs1 ++ (@runNewsWrites Rule Entry Db E storeNews news_entries db1).2) = _
  rw [h2]
  rfl

/-- C1: in every run of the persistence phase, every `writeRule` storage call
precedes every `writeNews` storage call in the sequence of storage write calls:
if position i of the call trace is a news write and position j is a rule write,
then j < i — rules before items, never the reverse. -/
theorem save_data_into_database_rules_before_news
    {Rule Entry Db E : Type}
    (storeRule : Rule → Db → Except E Db) (storeNews : Entry → Db → Except E Db)
    (scraping_rules : List Rule) (news_entries : List Entry) (db : Db)
    (i j : Nat) (e : Entry) (r : Rule)
    (hi : (save_data_into_database storeRule storeNews scraping_rules
            news_entries db).2.get? i = some (DbEvent.writeNews e))
    (hj : (save_data_into_database storeRule storeNews scraping_rules
            news_entries db).2.get? j = some (DbEvent.writeRule r)) :
    j < i := by
  rcases hruns : @runRuleWrites Rule Entry Db E storeRule scraping_rules db with ⟨res1, evs1⟩
  have hall1 : ∀ ev ∈ evs1, ∃ r0, ev = DbEvent.writeRule r0 := by
    have h := @runRuleWrites_events Rule Entry Db E storeRule scraping_rules db
    rw [hruns] at h
    exact h
  cases res1 with
  | error err =>
    rw [save_eq_of_ruleWrites_error storeRule storeNews scraping_rules
      news_entries db err evs1 hruns] at hi
    have hmem := List.get?_mem hi
    simp only [List.cons_append, List.mem_cons, List.mem_append,
      List.mem_singleton] at hmem
    rcases hmem with h1 | h1 | h1
    · simp at h1
    · obtain ⟨r0, hr0⟩ := hall1 _ h1
      simp at hr0
    · simp at h1
  | ok db1 =>
    rcases hnews : @runNewsWrites Rule Entry Db E storeNews news_entries db1
      with ⟨res2, evs2⟩
    have hall2 : ∀ ev ∈ evs2, ∃ e0, ev = DbEvent.writeNews e0 := by
      have h := @runNewsWrites_events Rule Entry Db E storeNews news_entries db1
      rw [hnews] at h
      exact h
    rw [save_eq_of_ruleWrites_ok storeRule storeNews scraping_rules
      news_entries db db1 evs1 res2 evs2 hruns hnews] at hi hj
    have htr : (DbEvent.openConn :: (evs1 ++ evs2) ++ [DbEvent.closeConn]
          : List (DbEvent Rule Entry)) =
        (DbEvent.openConn :: evs1) ++ (evs2 ++ [DbEvent.closeConn]) := by
      simp
    rw [htr] at hi hj
    have hjlt : j < (DbEvent.openConn :: evs1).length := by
      by_contra hle
      push_neg at hle
      rw [List.get?_append_right hle] at hj
      have hmem := List.get?_mem hj
      simp only [List.mem_append, List.mem_singleton] at hmem
      rcases hmem with h1 | h1
      · obtain ⟨e0, he0⟩ := hall2 _ h1
        simp at he0
      · simp at h1
    have hige : (DbEvent.openConn :: evs1).length ≤ i := by
      by_contra hlt
      push_neg at hlt
      rw [List.get?_append hlt] at hi
      have hmem := List.get?_mem hi
      simp only [List.mem_cons] at hmem
      rcases hmem with h1 | h1
      · simp at h1
      · obtain ⟨r0, hr0⟩ := hall1 _ h1
        simp at hr0
    omega

/-- C5: on every run of the persistence phase the scoped connection is released
on every exit path — the call trace begins with the connection acquisition and
ends with exactly one connection release, whether the writes all succeed or one
of them raises — and a write error is not swallowed: the run's result is exactly
the result of the two write phases, so a failing write surfaces as `.error`. -/
theorem save_data_into_database_releases_connection
    {Rule Entry Db E : Type}
    (storeRule : Rule → Db → Except E Db) (storeNews : Entry → Db → Except E Db)
    (scraping_rules : List Rule) (news_entries : List Entry) (db : Db) :
    (save_data_into_database storeRule storeNews scraping_rules
        news_entries db).2.head? = some DbEvent.openConn ∧
    (save_data_into_database storeRule storeNews scraping_rules
        news_entries db).2.getLast? = some DbEvent.closeConn ∧
    (save_data_into_database storeRule storeNews scraping_rules
        news_entries db).2.countP DbEvent.isClose = 1 ∧
    (save_data_into_database storeRule storeNews scraping_rules
        news_entries db).1 =
      (match (@runRuleWrites Rule Entry Db E storeRule scraping_rules db).1 with
       | .error err => .error err
       | .ok db1 => (@runNewsWrites Rule Entry Db E storeNews news_entries db1).1) := by
  rcases hruns : @runRuleWrites Rule Entry Db E storeRule scraping_rules db with ⟨res1, evs1⟩
  have hall1 : ∀ ev ∈ evs1, ∃ r0, ev = DbEvent.writeRule r0 := by
    have h := @runRuleWrites_events Rule Entry Db E storeRule scraping_rules db
    rw [hruns] at h
    exact h
  have h1 : List.countP DbEvent.isClose evs1 = 0 := by
    rw [List.countP_eq_zero]
    intro ev hev
    obtain ⟨r0, hr0⟩ := hall1 ev hev
    simp [hr0, DbEvent.isClose]
  cases res1 with
  | error err =>
    rw [save_eq_of_ruleWrites_error storeRule storeNews scraping_rules
      news_entries db err evs1 hruns]
    refine ⟨rfl, List.getLast?_concat _, ?_, rfl⟩
    simp [List.countP_append, List.countP_cons, h1, DbEvent.isClose]
  | ok db1 =>
    rcases hnews : @runNewsWrites Rule Entry Db E storeNews news_entries db1
      with ⟨res2, evs2⟩
    have hall2 : ∀ ev ∈ evs2, ∃ e0, ev = DbEvent.writeNews e0 := by
      have h := @runNewsWrites_events Rule Entry Db E storeNews news_entries db1
      rw [hnews] at h
      exact h
    have h2 : List.countP DbEvent.isClose evs2 = 0 := by
      rw [List.countP_eq_zero]
      intro ev hev
      obtain ⟨e0, he0⟩ := hall2 ev hev
      simp [he0, DbEvent.isClose]
    rw [save_eq_of_ruleWrites_ok storeRule storeNews scraping_rules
      news_entries db db1 evs1 res2 evs2 hruns hnews]
    refine ⟨rfl, List.getLast?_concat _, ?_, (congrArg Prod.fst hnews).symm⟩
    simp [List.countP_append, List.countP_cons, h1, h2, DbEvent.isClose]

lemma exists_id_upsertRuleRow_self {V : Type} (rows : List (ScrapingRule V))
    (r : ScrapingRule V) :
    ∃ row ∈ upsertRuleRow rows r, row.ruleId = r.ruleId := by
  unfold upsertRuleRow
  by_cases hany : rows.any (fun row => row.ruleId == r.ruleId) = true
  · rw [if_pos hany]
    rcases List.any_eq_true.mp hany with ⟨row0, hrow0, hbeq⟩
    refine ⟨r, List.mem_map.mpr ⟨row0, hrow0, ?_⟩, rfl⟩
    simp only [hbeq, if_true]
  · rw [if_neg hany]
    exact ⟨r, List.mem_append_right _ (List.mem_singleton.mpr rfl), rfl⟩

lemma exists_id_upsertRuleRow_of_mem {V : Type} (rows : List (ScrapingRule V))
    (r : ScrapingRule V) (i : Nat)
    (h : ∃ row ∈ rows, row.ruleId = i) :
    ∃ row ∈ upsertRuleRow rows r, row.ruleId = i := by
  obtain ⟨row0, hrow0, hid⟩ := h
  unfold upsertRuleRow
  by_cases hany : rows.any (fun row => row.ruleId == r.ruleId) = true
  · rw [if_pos hany]
    refine ⟨if row0.ruleId == r.ruleId then r else row0,
            List.mem_map.mpr ⟨row0, hrow0, rfl⟩, ?_⟩
    by_cases hb : (row0.ruleId == r.ruleId) = true
    · rw [if_pos hb]
      have hb2 : row0.ruleId = r.ruleId := by simpa using hb
      rw [← hb2]
      exact hid
    · rw [if_neg hb]
      exact hid
  · rw [if_neg hany]
    exact ⟨row0, List.mem_append_left _ hrow0, hid⟩

lemma exists_id_upsertRules_of_mem {V : Type} (rules : List (ScrapingRule V))
    (rows : List (ScrapingRule V)) (i : Nat)
    (h : ∃ row ∈ rows, row.ruleId = i) :
    ∃ row ∈ upsertRules rules rows, row.ruleId = i := by
  induction rules generalizing rows with
  | nil => exact h
  | cons r rs ih =>
    exact ih (upsertRuleRow rows r) (exists_id_upsertRuleRow_of_mem rows r i h)

lemma upsertRules_has_ids {V : Type} (rules : List (ScrapingRule V))
    (rows : List (ScrapingRule V)) :
    ∀ r ∈ rules, ∃ row ∈ upsertRules rules rows, row.ruleId = r.ruleId := by
  induction rules generalizing rows with
  | nil => intro r h; simp at h
  | cons r0 rs ih =>
    intro r h
    rcases List.mem_cons.mp h with rfl | h
    · exact exists_id_upsertRules_of_mem rs (upsertRuleRow rows r) r.ruleId
        (exists_id_upsertRuleRow_self rows r)
    · exact ih (upsertRuleRow rows r0) r h

lemma lastUpsert_append_singleton {V : Type} (rs : List (ScrapingRule V))
    (r : ScrapingRule V) (i : Nat) :
    lastUpsert (rs ++ [r]) i =
      if r.ruleId == i then some r else lastUpsert rs i := by
  induction rs with
  | nil =>
    cases hb : r.ruleId == i <;> simp [lastUpsert, hb]
  | cons r0 rs ih =>
    by_cases hb : (r.ruleId == i) = true
    · show (match lastUpsert (rs ++ [r]) i with
            | some r1 => some r1
            | none => if r0.ruleId == i then some r0 else none) = _
      rw [ih, if_pos hb, if_pos hb]
    · show (match lastUpsert (rs ++ [r]) i with
            | some r1 => some r1
            | none => if r0.ruleId == i then some r0 else none) = _
      rw [ih, if_neg hb, if_neg hb]
      rfl

lemma mem_upsertRuleRow_self_id {V : Type} (rows : List (ScrapingRule V))
    (r row : ScrapingRule V) (hmem : row ∈ upsertRuleRow rows r)
    (hid : row.ruleId = r.ruleId) : row = r := by
  unfold upsertRuleRow at hmem
  by_cases hany : rows.any (fun x => x.ruleId == r.ruleId) = true
  · rw [if_pos hany] at hmem
    rcases List.mem_map.mp hmem with ⟨row0, hrow0, heq⟩
    by_cases hb : (row0.ruleId == r.ruleId) = true
    · rw [if_pos hb] at heq
      exact heq.symm
    · rw [if_neg hb] at heq
      exfalso
      apply hb
      rw [heq]
      simpa using hid
  · rw [if_neg hany] at hmem
    rcases List.mem_append.mp hmem with hmem | hmem
    · exfalso
      apply hany
      exact List.any_eq_true.mpr ⟨row, hmem, by simpa using hid⟩
    · simpa using hmem

lemma mem_upsertRuleRow_of_ne {V : Type} (rows : List (ScrapingRule V))
    (r row : ScrapingRule V) (hmem : row ∈ upsertRuleRow rows r)
    (hid : row.ruleId ≠ r.ruleId) : row ∈ rows := by
  unfold upsertRuleRow at hmem
  by_cases hany : rows.any (fun x => x.ruleId == r.ruleId) = true
  · rw [if_pos hany] at hmem
    rcases List.mem_map.mp hmem with ⟨row0, hrow0, heq⟩
    by_cases hb : (row0.ruleId == r.ruleId) = true
    · rw [if_pos hb] at heq
      exfalso
      apply hid
      rw [← heq]
    · rw [if_neg hb] at heq
      exact heq ▸ hrow0
  · rw [if_neg hany] at hmem
    rcases List.mem_append.mp hmem with hmem | hmem
    · exact hmem
    · exfalso
      apply hid
      have hrow : row = r := by simpa using hmem
      rw [hrow]

lemma upsertRules_append_singleton {V : Type} (rs : List (ScrapingRule V))
    (r : ScrapingRule V) (rows : List (ScrapingRule V)) :
    upsertRules (rs ++ [r]) rows = upsertRuleRow (upsertRules rs rows) r := by
  simp [upsertRules, List.foldl_append]

lemma upsertRules_row_eq_lastUpsert {V : Type} (rules : List (ScrapingRule V)) :
    ∀ (rows : List (ScrapingRule V)), ∀ row ∈ upsertRules rules rows,
      ∀ r, lastUpsert rules row.ruleId = some r → row = r := by
  induction rules using List.reverseRecOn with
  | nil =>
    intro rows row hrow r hlast
    simp [lastUpsert] at hlast
  | append_singleton rs r0 ih =>
    intro rows row hrow r hlast
    rw [lastUpsert_append_singleton] at hlast
    rw [upsertRules_append_singleton] at hrow
    by_cases hb : (r0.ruleId == row.ruleId) = true
    · rw [if_pos hb] at hlast
      obtain rfl : r0 = r := Option.some.inj hlast
      have hid : row.ruleId = r0.ruleId := by
        have := (by simpa using hb : r0.ruleId = row.ruleId)
        exact this.symm
      exact mem_upsertRuleRow_self_id (upsertRules rs rows) r0 row hrow hid
    · rw [if_neg hb] at hlast
      have hne : row.ruleId ≠ r0.ruleId := by
        intro hcontra
        exact hb (by simpa using hcontra.symm)
      exact ih rows row (mem_upsertRuleRow_of_ne (upsertRules rs rows) r0 row hrow hne)
        r hlast

lemma upsertRuleRow_of_exists {V : Type} (rows : List (ScrapingRule V))
    (r : ScrapingRule V) (h : ∃ row ∈ rows, row.ruleId = r.ruleId) :
    upsertRuleRow rows r =
      rows.map (fun row => if row.ruleId == r.ruleId then r else row) := by
  unfold upsertRuleRow
  rw [if_pos]
  obtain ⟨row0, h0, hid⟩ := h
  exact List.any_eq_true.mpr ⟨row0, h0, by simpa using hid⟩

lemma upsertRules_eq_replaceByLast {V : Type} (rules : List (ScrapingRule V))
    (rows : List (ScrapingRule V))
    (hpres : ∀ r ∈ rules, ∃ row ∈ rows, row.ruleId = r.ruleId) :
    upsertRules rules rows = replaceByLast rules rows := by
  induction rules generalizing rows with
  | nil =>
    simp [upsertRules, replaceByLast, lastUpsert, List.map_id]
  | cons r rs ih =>
    have hr := hpres r (List.mem_cons_self r rs)
    have hrow := upsertRuleRow_of_exists rows r hr
    have hpres2 : ∀ r2 ∈ rs,
        ∃ row ∈ rows.map (fun row => if row.ruleId == r.ruleId then r else row),
          row.ruleId = r2.ruleId := by
      intro r2 hr2
      obtain ⟨row0, h0, hid⟩ := hpres r2 (List.mem_cons_of_mem r hr2)
      refine ⟨if row0.ruleId == r.ruleId then r else row0,
              List.mem_map.mpr ⟨row0, h0, rfl⟩, ?_⟩
      by_cases hb : (row0.ruleId == r.ruleId) = true
      · rw [if_pos hb]
        have hb2 : row0.ruleId = r.ruleId := by simpa using hb
        rw [← hb2]
        exact hid
      · rw [if_neg hb]
        exact hid
    have step : upsertRules (r :: rs) rows =
        upsertRules rs (rows.map (fun row => if row.ruleId == r.ruleId then r else row)) := by
      rw [← hrow]
      rfl
    rw [step, ih _ hpres2]
    unfold replaceByLast
    rw [List.map_map]
    apply List.map_congr_left
    intro row hrow0
    simp only [Function.comp]
    by_cases hpq : row.ruleId = r.ruleId
    · cases hlu : lastUpsert rs r.ruleId with
      | some r2 => simp [hpq, hlu, lastUpsert]
      | none => simp [hpq, hlu, lastUpsert]
    · have hb : (row.ruleId == r.ruleId) = false := by
        simpa using hpq
      have hb2 : (r.ruleId == row.ruleId) = false := by
        simp only [beq_eq_false_iff_ne, ne_eq]
        intro hcontra
        exact hpq hcontra.symm
      cases hlu : lastUpsert rs row.ruleId with
      | some r2 => simp [hb, hlu, lastUpsert]
      | none => simp [hb, hb2, hlu, lastUpsert]

lemma replaceByLast_upsertRules {V : Type} (rules : List (ScrapingRule V))
    (rows : List (ScrapingRule V)) :
    replaceByLast rules (upsertRules rules rows) = upsertRules rules rows := by
  unfold replaceByLast
  have hfix : ∀ row ∈ upsertRules rules rows,
      (match lastUpsert rules row.ruleId with
       | some r => r
       | none => row) = row := by
    intro row hrow
    cases hlu : lastUpsert rules row.ruleId with
    | none => rfl
    | some r =>
      exact (upsertRules_row_eq_lastUpsert rules rows row hrow r hlu).symm
  rw [List.map_congr_left hfix, List.map_id']

lemma upsertRules_idem {V : Type} (rules : List (ScrapingRule V))
    (rows : List (ScrapingRule V)) :
    upsertRules rules (upsertRules rules rows) = upsertRules rules rows := by
  rw [upsertRules_eq_replaceByLast rules (upsertRules rules rows)
      (upsertRules_has_ids rules rows),
    replaceByLast_upsertRules]

lemma runRuleWrites_storeRuleToDb {V W : Type} (rules : List (ScrapingRule V))
    (db : List (ScrapingRule V) × List (NewsRow W)) :
    @runRuleWrites (ScrapingRule V) (NewsRow W)
        (List (ScrapingRule V) × List (NewsRow W)) Unit storeRuleToDb rules db =
      (.ok (upsertRules rules db.1, db.2), rules.map DbEvent.writeRule) := by
  induction rules generalizing db with
  | nil => simp [runRuleWrites, upsertRules]
  | cons r rs ih =>
    simp [runRuleWrites, storeRuleToDb, ih, upsertRules]

lemma runNewsWrites_storeNewsToDb {V W : Type} (entries : List (NewsRow W))
    (db : List (ScrapingRule V) × List (NewsRow W)) :
    @runNewsWrites (ScrapingRule V) (NewsRow W)
        (List (ScrapingRule V) × List (NewsRow W)) Unit storeNewsToDb entries db =
      (.ok (db.1, upsertNewsRows entries db.2), entries.map DbEvent.writeNews) := by
  induction entries generalizing db with
  | nil => simp [runNewsWrites, upsertNewsRows]
  | cons e es ih =>
    simp [runNewsWrites, storeNewsToDb, ih, upsertNewsRows]

lemma save_storeToDb {V W : Type} (rules : List (ScrapingRule V))
    (entries : List (NewsRow W))
    (db : List (ScrapingRule V) × List (NewsRow W)) :
    save_data_into_database storeRuleToDb storeNewsToDb rules entries db =
      (.ok (savedDb rules entries db),
       DbEvent.openConn :: (rules.map DbEvent.writeRule ++ entries.map DbEvent.writeNews)
         ++ [DbEvent.closeConn]) :=
  save_eq_of_ruleWrites_ok storeRuleToDb storeNewsToDb rules entries db
    (upsertRules rules db.1, db.2) (rules.map DbEvent.writeRule)
    (.ok (savedDb rules entries db)) (entries.map DbEvent.writeNews)
    (runRuleWrites_storeRuleToDb rules db)
    (runNewsWrites_storeNewsToDb entries (upsertRules rules db.1, db.2))

/-- C7: running the persistence phase a second time with the same unchanged rule
sequence (against the upsert-by-identifier storage modelled from the spec)
leaves the stored rule rows identical to running it once: each rule write is an
upsert keyed by the rule's identifier, so repetition creates no duplicate rule
rows. -/
theorem save_data_into_database_rule_rows_idempotent {V W : Type}
    (scraping_rules : List (ScrapingRule V)) (news_entries : List (NewsRow W))
    (db : List (ScrapingRule V) × List (NewsRow W)) :
    ∃ db1 db2 t1 t2,
      save_data_into_database storeRuleToDb storeNewsToDb scraping_rules
          news_entries db = (.ok db1, t1) ∧
      save_data_into_database storeRuleToDb storeNewsToDb scraping_rules
          news_entries db1 = (.ok db2, t2) ∧
      db2.1 = db1.1 := by
  refine ⟨savedDb scraping_rules news_entries db,
          savedDb scraping_rules news_entries (savedDb scraping_rules news_entries db),
          _, _,
          save_storeToDb scraping_rules news_entries db,
          save_storeToDb scraping_rules news_entries
            (savedDb scraping_rules news_entries db), ?_⟩
  simp [savedDb, upsertRules_idem]

/-- C6 counterexample: at a concrete run with five collected entries of which
exactly one matches a rule, `main` returns None (its Python return value) and
logs the count line; it does not return the pair (total_items, matched_items) =
(5, 1) that the claim asserts. -/
theorem main_counterexample :
    main (fun (r n : Nat) => n == r) [0, 1, 2, 3, 4] [2] =
      (none, ["Record 1 news out of total 5 news."]) ∧
    (main (fun (r n : Nat) => n == r) [0, 1, 2, 3, 4] [2]).1 ≠
      some (5, 1) := by
  constructor
  · decide
  · decide

/-- C6 amended: the run entry point `main` takes no worker-count or deadline
arguments (those are the module constants MAX_WORKERS = 10 and
RSS_WORKER_TIMEOUT = 120), performs the pipeline, returns None, and logs — not
returns — the pair of counts, as
`Record (matched_items) news out of total (total_items) news.` -/
theorem main_returns_none_and_logs_counts {I R : Type} (ruleMatches : R → I → Bool)
    (news_entries : List I) (scraping_rules : List R) :
    (main ruleMatches news_entries scraping_rules).1 = none ∧
    recordCountMsg
        (get_target_news_by_scraping_rules ruleMatches news_entries
          scraping_rules).length
        news_entries.length
      ∈ (main ruleMatches news_entries scraping_rules).2 ∧
    MAX_WORKERS = 10 ∧ RSS_WORKER_TIMEOUT = 120 := by
  refine ⟨rfl, ?_, rfl, rfl⟩
  simp [main]

/-- C9: `log_warning` raises NewsScrapperError exactly when no logger named
error_log has been set up, and otherwise appends the message at the requested
severity (error when is_error is true, warning otherwise) without raising;
consequently a collector run whose first completed task failed (a
failure-logging path) itself fails with that same error when the logger is
missing, so every failure-logging path presupposes the logger. -/
theorem log_warning_requires_error_log (msg : String) (is_error : Bool)
    (s : LogState) :
    (s.errorLogSetUp = false →
      log_warning msg is_error s = .error ⟨loggerMissingMsg⟩) ∧
    (s.errorLogSetUp = true →
      log_warning msg is_error s =
        .ok { s with messages := s.messages ++ [(is_error, msg)] }) ∧
    (∀ (Raw Feed : Type) (parse : Raw → Feed) (url : String) (code : Int)
        (rest : List (FeedTask Raw)) (tmo : Option String),
      s.errorLogSetUp = false →
      retrieve_registered_news_by_rss parse
          ({ url := url, outcome := .httpError code } :: rest) tmo s =
        .error ⟨loggerMissingMsg⟩) := by
  refine ⟨fun h => by simp [log_warning, h], fun h => by simp [log_warning, h], ?_⟩
  intro Raw Feed parse url code rest tmo h
  simp [retrieve_registered_news_by_rss, processCompleted, log_warning, h]

/- ---------------------------------------------------------------------------
   Facts about the regex model for extract_domain_name_from_url.
--------------------------------------------------------------------------- -/

lemma takeWhile_all_append_cons {α : Type} (p : α → Bool) (l1 : List α) (a : α)
    (l2 : List α) (h1 : ∀ c ∈ l1, p c = true) (ha : p a = false) :
    (l1 ++ a :: l2).takeWhile p = l1 := by
  induction l1 with
  | nil => simp [List.takeWhile_cons, ha]
  | cons c l1 ih =>
    have hc : p c = true := h1 c (List.mem_cons_self c l1)
    simp [List.takeWhile_cons, hc,
      ih (fun x hx => h1 x (List.mem_cons_of_mem c hx))]

lemma dropWhile_all_append_cons {α : Type} (p : α → Bool) (l1 : List α) (a : α)
    (l2 : List α) (h1 : ∀ c ∈ l1, p c = true) (ha : p a = false) :
    (l1 ++ a :: l2).dropWhile p = a :: l2 := by
  induction l1 with
  | nil => simp [List.dropWhile_cons, ha]
  | cons c l1 ih =>
    have hc : p c = true := h1 c (List.mem_cons_self c l1)
    simp [List.dropWhile_cons, hc,
      ih (fun x hx => h1 x (List.mem_cons_of_mem c hx))]

lemma matchBaseUrl_of_wellFormed (scheme host rest : String)
    (hscheme : scheme = "http://" ∨ scheme = "https://")
    (hne : host.data ≠ [])
    (hchars : ∀ c ∈ host.data, isHostChar c = true) :
    matchBaseUrl (scheme ++ host ++ "/" ++ rest) = some host.data := by
  have hslash : isHostChar '/' = false := by decide
  have hdrop : (host.data ++ '/' :: rest.data).dropWhile isHostChar =
      '/' :: rest.data :=
    dropWhile_all_append_cons isHostChar host.data '/' rest.data hchars hslash
  have htake : (host.data ++ '/' :: rest.data).takeWhile isHostChar = host.data :=
    takeWhile_all_append_cons isHostChar host.data '/' rest.data hchars hslash
  have hempty : (host.data).isEmpty = false := by
    cases hd : host.data with
    | nil => exact absurd hd hne
    | cons c cs => rfl
  have hdata : (scheme ++ host ++ "/" ++ rest).data =
      scheme.data ++ (host.data ++ '/' :: rest.data) := by
    simp [String.data_append, List.append_assoc]
  unfold matchBaseUrl
  rw [hdata]
  rcases hscheme with rfl | rfl
  · have h1 : matchScheme (("http://" : String).data ++
        (host.data ++ '/' :: rest.data)) =
        some (host.data ++ '/' :: rest.data) := rfl
    rw [h1]
    simp [hdrop, htake, hempty]
  · have h1 : matchScheme (("https://" : String).data ++
        (host.data ++ '/' :: rest.data)) =
        some (host.data ++ '/' :: rest.data) := rfl
    rw [h1]
    simp [hdrop, htake, hempty]

/-- C10: for every url of the shape scheme ++ host ++ / ++ anything with scheme
http:// or https:// and host a nonempty run of characters from
letters/digits/dot/hyphen (exactly the links matched by the source pattern),
`extract_domain_name_from_url` returns the host with every leading character in
the set containing w and the dot removed — the character-set semantics of
`lstrip` on the string www., not a prefix strip — and for every link the
pattern does not match it logs a warning naming the link and returns None
rather than raising (the error_log logger being set up). -/
theorem extract_domain_name_from_url_spec (link scheme host rest : String)
    (s : LogState) (hlog : s.errorLogSetUp = true)
    (hscheme : scheme = "http://" ∨ scheme = "https://")
    (hne : host.data ≠ [])
    (hchars : ∀ c ∈ host.data, isHostChar c = true) :
    extract_domain_name_from_url (scheme ++ host ++ "/" ++ rest) s =
      .ok (some (String.mk (lstripWwwChars host.data)), s) ∧
    (matchBaseUrl link = none →
      extract_domain_name_from_url link s =
        .ok (none, { s with messages := s.messages ++
          [(false, "News link [" ++ link ++ "] does not match base_url_pattern.")] })) := by
  constructor
  · unfold extract_domain_name_from_url
    rw [matchBaseUrl_of_wellFormed scheme host rest hscheme hne hchars]
  · intro hnone
    unfold extract_domain_name_from_url
    rw [hnone]
    simp [log_warning, hlog]

/- ---------------------------------------------------------------------------
   Concrete witnesses.
--------------------------------------------------------------------------- -/

theorem save_data_into_database_rules_before_news_witness :
    (save_data_into_database (fun (_ : Nat) (db : Nat) => (.ok db : Except Unit Nat))
        (fun (_ : Nat) (db : Nat) => (.ok db : Except Unit Nat))
        [3] [5] 0).2.get? 2 = some (DbEvent.writeNews 5) ∧
    (save_data_into_database (fun (_ : Nat) (db : Nat) => (.ok db : Except Unit Nat))
        (fun (_ : Nat) (db : Nat) => (.ok db : Except Unit Nat))
        [3] [5] 0).2.get? 1 = some (DbEvent.writeRule 3) ∧
    (1 : Nat) < 2 :=
  ⟨by decide, by decide,
   save_data_into_database_rules_before_news
     (fun (_ : Nat) (db : Nat) => (.ok db : Except Unit Nat))
     (fun (_ : Nat) (db : Nat) => (.ok db : Except Unit Nat))
     [3] [5] 0 2 1 5 3 (by decide) (by decide)⟩

theorem retrieve_registered_news_by_rss_isolates_failures_witness :
    (LogState.mk true []).errorLogSetUp = true ∧
    ∃ s2 : LogState,
      retrieve_registered_news_by_rss (fun r : Nat => r)
          [⟨"u1", FetchOutcome.success 7⟩, ⟨"u2", FetchOutcome.httpError 404⟩]
          none (LogState.mk true []) =
        .ok (successFeeds (fun r : Nat => r)
              [⟨"u1", FetchOutcome.success 7⟩, ⟨"u2", FetchOutcome.httpError 404⟩],
             s2) ∧
      ∀ t ∈ ([⟨"u1", FetchOutcome.success 7⟩,
              ⟨"u2", FetchOutcome.httpError 404⟩] : List (FeedTask Nat)),
        t.outcome.isSuccess = false →
        ∃ pre post, (false, pre ++ t.url ++ post) ∈ s2.messages :=
  ⟨rfl,
   retrieve_registered_news_by_rss_isolates_failures (fun r : Nat => r)
     [⟨"u1", FetchOutcome.success 7⟩, ⟨"u2", FetchOutcome.httpError 404⟩]
     none (LogState.mk true []) rfl⟩

theorem retrieve_registered_news_by_rss_counts_witness :
    (LogState.mk true []).errorLogSetUp = true ∧
    ([⟨"u2", FetchOutcome.httpError 404⟩, ⟨"u1", FetchOutcome.success 7⟩]
        : List (FeedTask Nat)).Perm
      [⟨"u1", FetchOutcome.success 7⟩, ⟨"u2", FetchOutcome.httpError 404⟩] ∧
    (successFeeds (fun r : Nat => r)
        ([⟨"u2", FetchOutcome.httpError 404⟩, ⟨"u1", FetchOutcome.success 7⟩]
          : List (FeedTask Nat))).length =
      ([⟨"u1", FetchOutcome.success 7⟩, ⟨"u2", FetchOutcome.httpError 404⟩]
        : List (FeedTask Nat)).length -
      ([⟨"u1", FetchOutcome.success 7⟩, ⟨"u2", FetchOutcome.httpError 404⟩]
        : List (FeedTask Nat)).countP (fun t => !t.outcome.isSuccess) :=
  ⟨rfl, List.Perm.swap _ _ _,
   (retrieve_registered_news_by_rss_counts (fun r : Nat => r)
      [⟨"u1", FetchOutcome.success 7⟩, ⟨"u2", FetchOutcome.httpError 404⟩]
      [⟨"u2", FetchOutcome.httpError 404⟩, ⟨"u1", FetchOutcome.success 7⟩]
      (LogState.mk true []) rfl (List.Perm.swap _ _ _)).2.1⟩

theorem retrieve_registered_news_by_rss_deadline_witness :
    (LogState.mk true []).errorLogSetUp = true ∧
    anyOutstanding
      ([⟨⟨"u1", FetchOutcome.success 7⟩, 5⟩,
        ⟨⟨"u2", FetchOutcome.urlError "refused"⟩, 50⟩] : List (TimedTask Nat))
      10 = true ∧
    retrieve_with_deadline (fun r : Nat => r)
        [⟨⟨"u1", FetchOutcome.success 7⟩, 5⟩,
         ⟨⟨"u2", FetchOutcome.urlError "refused"⟩, 50⟩] 10
        ("1 futures unfinished") (LogState.mk true []) =
      .ok (successFeeds (fun r : Nat => r)
            (completedBy [⟨⟨"u1", FetchOutcome.success 7⟩, 5⟩,
                          ⟨⟨"u2", FetchOutcome.urlError "refused"⟩, 50⟩] 10),
           LogState.mk true
             ((LogState.mk true []).messages ++
              failureLogs (completedBy
                [⟨⟨"u1", FetchOutcome.success 7⟩, 5⟩,
                 ⟨⟨"u2", FetchOutcome.urlError "refused"⟩, 50⟩] 10) ++
              [(false, timeoutMsg ("1 futures unfinished"))])) :=
  ⟨rfl, by decide,
   retrieve_registered_news_by_rss_deadline (fun r : Nat => r)
     [⟨⟨"u1", FetchOutcome.success 7⟩, 5⟩,
      ⟨⟨"u2", FetchOutcome.urlError "refused"⟩, 50⟩] 10
     ("1 futures unfinished") (LogState.mk true []) rfl (by decide)⟩

theorem retrieve_registered_news_by_rss_deadline_monotone_witness :
    (1 : Nat) < 20 ∧
    ∃ fs1 s1 fs2 s2,
      retrieve_with_deadline (fun r : Nat => r)
          [⟨⟨"u1", FetchOutcome.success 7⟩, 5⟩] 1 ("d1") (LogState.mk true []) =
        .ok (fs1, s1) ∧
      retrieve_with_deadline (fun r : Nat => r)
          [⟨⟨"u1", FetchOutcome.success 7⟩, 5⟩] 20 ("d2") (LogState.mk true []) =
        .ok (fs2, s2) ∧
      ∀ f ∈ fs1, f ∈ fs2 :=
  ⟨by decide,
   retrieve_registered_news_by_rss_deadline_monotone (fun r : Nat => r)
     [⟨⟨"u1", FetchOutcome.success 7⟩, 5⟩] 1 20 ("d1") ("d2")
     (LogState.mk true []) rfl (by decide)⟩

theorem log_warning_requires_error_log_witness :
    (LogState.mk false []).errorLogSetUp = false ∧
    log_warning ("boom") false (LogState.mk false []) = .error ⟨loggerMissingMsg⟩ :=
  ⟨rfl, (log_warning_requires_error_log ("boom") false (LogState.mk false [])).1 rfl⟩

theorem extract_domain_name_from_url_spec_witness :
    (("www.example.com" : String).data ≠ []) ∧
    extract_domain_name_from_url
        ("https://" ++ "www.example.com" ++ "/" ++ "a") (LogState.mk true []) =
      .ok (some ("example.com"), LogState.mk true []) := by
  constructor
  · decide
  · have h := (extract_domain_name_from_url_spec ("x") ("https://")
      ("www.example.com") ("a") (LogState.mk true []) rfl (Or.inr rfl)
      (by decide) (by decide)).1
    have hstr : String.mk (lstripWwwChars (("www.example.com" : String).data)) =
        "example.com" := by decide
    rw [hstr] at h
    exact h

end NewsScraper
